import Mathlib

/-!
Shallow embedding of the MemoryEngine backend's page / sharing core
(`app/services/pages_service.py`, `app/services/sharing_service.py`,
`app/core/permissions.py`, `app/routers/auth.py` together with the
`assign_first_user_admin` trigger of migration 006), with theorems checking
the natural-language specification against it.

Modelling conventions:
* UUIDs are abstracted as naturals.  The source tie-breaks sibling order by
  the string form of the UUID; any fixed linear order on identifiers plays
  that role here, so ids are compared as naturals.
* The relational store is a record of three lists (users, pages, shares);
  SQLAlchemy `scalar_one_or_none` lookups become `List.find?`, `WHERE`
  filters become `List.filter`, and inner joins become nested filters.
* `ORDER BY` on a text column is modelled as codepoint-lexicographic
  (binary-collation) string comparison, which is core `String` order.
* Python `str.casefold` / `str.lower` / `str.strip` are modelled on the
  underlying character list (`Char.toLower`, `Char.isWhitespace`); the
  titles and emails of interest are ASCII.
* Timestamps are omitted: no claim under consideration mentions them.
* HTTP exceptions become an error type; a service either returns a value
  (`Except.ok`) or raises before any mutation (`Except.error`).
-/

/-- Error taxonomy of the backend (HTTP 422 / 404 / 403 / 409 / 401). -/
inductive ApiError where
  | validation
  | notFound
  | forbidden
  | conflict
  | unauthorized
deriving DecidableEq, Repr

/-- `app/models/user.py` UserRole. -/
inductive Role where
  | admin
  | user
deriving DecidableEq, Repr

/-- `app/models/page_share.py` PermissionLevel. -/
inductive PermissionLevel where
  | view_only
  | edit
deriving DecidableEq, Repr

/-- Effective access of a user to a page (`app/core/permissions.py` PageAccessLevel). -/
inductive AccessLevel where
  | owner
  | edit
  | view_only
deriving DecidableEq, Repr

/-- Minimum access demanded by a route (`app/core/permissions.py` RequiredPageAccess). -/
inductive RequiredAccess where
  | view
  | edit
  | owner
deriving DecidableEq, Repr

/-- `app/models/user.py` User row. -/
structure User where
  id : Nat
  email : String
  name : Option String
  username : Option String
  password_hash : String
  role : Role
deriving DecidableEq, Repr

/-- `app/models/page.py` Page row (timestamps omitted). -/
structure Page where
  id : Nat
  user_id : Nat
  parent_id : Option Nat
  title : String
  content : Option String
deriving DecidableEq, Repr

/-- `app/models/page_share.py` PageShare row (surrogate id and timestamp
omitted; the row is identified by `(page_id, shared_with_user_id)`). -/
structure PageShare where
  page_id : Nat
  owner_id : Nat
  shared_with_user_id : Nat
  permission_level : PermissionLevel
deriving DecidableEq, Repr

/-- The relational store visible to one request. -/
structure DB where
  users : List User
  pages : List Page
  shares : List PageShare
deriving DecidableEq, Repr

/-- Python `str.lower` restricted to ASCII case mapping. -/
def lowerStr (s : String) : String :=
  String.mk (s.data.map Char.toLower)

/-- Python `str.casefold`; on the ASCII titles involved it agrees with
lowercasing. -/
def casefold (s : String) : String :=
  String.mk (s.data.map Char.toLower)

/-- Python `str.strip`: drop whitespace from both ends. -/
def strip (s : String) : String :=
  String.mk (((s.data.dropWhile Char.isWhitespace).reverse.dropWhile Char.isWhitespace).reverse)

/-- Codepoint-lexicographic comparison of character lists: the comparison
Python applies to strings, and the binary collation the store applies to a
text column. -/
def charListLt : List Char → List Char → Bool
  | [], [] => false
  | [], _ :: _ => true
  | _ :: _, [] => false
  | a :: as, b :: bs =>
    if a.toNat < b.toNat then true
    else if b.toNat < a.toNat then false
    else charListLt as bs

/-- Strict codepoint-lexicographic order on strings. -/
def strLt (a b : String) : Bool :=
  charListLt a.data b.data

theorem charListLt_trans : ∀ {a b c : List Char},
    charListLt a b = true → charListLt b c = true → charListLt a c = true
  | [], [], _, hab, _ => by simp [charListLt] at hab
  | [], _ :: _, [], _, hbc => by simp [charListLt] at hbc
  | [], _ :: _, _ :: _, _, _ => by simp [charListLt]
  | _ :: _, [], _, hab, _ => by simp [charListLt] at hab
  | _ :: _, _ :: _, [], _, hbc => by simp [charListLt] at hbc
  | a :: as, b :: bs, c :: cs, hab, hbc => by
    simp only [charListLt] at hab hbc ⊢
    by_cases h1 : a.toNat < b.toNat
    · by_cases h2 : b.toNat < c.toNat
      · rw [if_pos (show a.toNat < c.toNat by omega)]
      · by_cases h2' : c.toNat < b.toNat
        · rw [if_neg h2, if_pos h2'] at hbc
          exact absurd hbc (by simp)
        · rw [if_pos (show a.toNat < c.toNat by omega)]
    · by_cases h1' : b.toNat < a.toNat
      · rw [if_neg h1, if_pos h1'] at hab
        exact absurd hab (by simp)
      · rw [if_neg h1, if_neg h1'] at hab
        by_cases h2 : b.toNat < c.toNat
        · rw [if_pos (show a.toNat < c.toNat by omega)]
        · by_cases h2' : c.toNat < b.toNat
          · rw [if_neg h2, if_pos h2'] at hbc
            exact absurd hbc (by simp)
          · rw [if_neg h2, if_neg h2'] at hbc
            rw [if_neg (show ¬a.toNat < c.toNat by omega),
              if_neg (show ¬c.toNat < a.toNat by omega)]
            exact charListLt_trans hab hbc

theorem char_eq_of_toNat_eq {a b : Char} (h : a.toNat = b.toNat) : a = b := by
  apply Char.ext
  apply UInt32.toNat.inj h

theorem charListLt_antisymm : ∀ {a b : List Char},
    charListLt a b = false → charListLt b a = false → a = b
  | [], [], _, _ => rfl
  | [], _ :: _, hab, _ => by simp [charListLt] at hab
  | _ :: _, [], _, hba => by simp [charListLt] at hba
  | a :: as, b :: bs, hab, hba => by
    simp only [charListLt] at hab hba
    by_cases h1 : a.toNat < b.toNat <;> by_cases h2 : b.toNat < a.toNat <;>
      simp [h1, h2] at hab hba
    have hc : a = b := char_eq_of_toNat_eq (by omega)
    have ht : as = bs := charListLt_antisymm hab hba
    rw [hc, ht]

theorem strLt_antisymm {a b : String} (hab : strLt a b = false)
    (hba : strLt b a = false) : a = b := by
  cases a; cases b
  exact congrArg String.mk (charListLt_antisymm hab hba)

/-- Sibling order used by the backend: a key string (raw or case-folded
title), ties broken by ascending id. -/
def byTitleKey (f : Page → String) (a b : Page) : Prop :=
  strLt (f a) (f b) = true ∨ (f a = f b ∧ a.id ≤ b.id)

instance (f : Page → String) : DecidableRel (byTitleKey f) := fun a b =>
  inferInstanceAs (Decidable (_ ∨ _))

instance (f : Page → String) : IsTotal Page (byTitleKey f) where
  total a b := by
    by_cases h1 : strLt (f a) (f b) = true
    · exact Or.inl (Or.inl h1)
    · by_cases h2 : strLt (f b) (f a) = true
      · exact Or.inr (Or.inl h2)
      · have he : f a = f b :=
          strLt_antisymm (Bool.not_eq_true _ ▸ h1) (Bool.not_eq_true _ ▸ h2)
        rcases Nat.le_total a.id b.id with h3 | h3
        · exact Or.inl (Or.inr ⟨he, h3⟩)
        · exact Or.inr (Or.inr ⟨he.symm, h3⟩)

instance (f : Page → String) : IsTrans Page (byTitleKey f) where
  trans a b c hab hbc := by
    rcases hab with hab | ⟨hab, hab2⟩
    · rcases hbc with hbc | ⟨hbc, _⟩
      · exact Or.inl (charListLt_trans hab hbc)
      · exact Or.inl (hbc ▸ hab)
    · rcases hbc with hbc | ⟨hbc, hbc2⟩
      · exact Or.inl (hab ▸ hbc)
      · exact Or.inr ⟨hab.trans hbc, le_trans hab2 hbc2⟩

/-- `get_child_pages` order: `ORDER BY title ASC, id ASC` (binary collation). -/
abbrev childOrder : Page → Page → Prop := byTitleKey Page.title

/-- `list_pages` sort key: `(page.title.casefold(), id)`. -/
abbrev treeOrder : Page → Page → Prop := byTitleKey (fun p => casefold p.title)

/-! ## Access evaluator (`app/services/sharing_service.py::check_page_access`,
`app/core/permissions.py::require_page_access`) -/

/-- Mapping a stored share level onto the effective access level string the
source returns (`permission.value`). -/
def PermissionLevel.toAccess : PermissionLevel → AccessLevel
  | .view_only => .view_only
  | .edit => .edit

/-- `check_page_access`: `None` when the page does not exist, `owner` for the
page's owner, else the share grant's level, else `None`. -/
def check_page_access (db : DB) (page_id user_id : Nat) : Option AccessLevel :=
  match db.pages.find? (fun p => p.id == page_id) with
  | none => none
  | some page =>
    if page.user_id == user_id then
      some .owner
    else
      match db.shares.find? (fun sh =>
          sh.page_id == page_id && sh.shared_with_user_id == user_id) with
      | none => none
      | some sh => some sh.permission_level.toAccess

/-- `require_page_access`: 404 when access is `None`; 403 when the level does
not meet the `required` minimum; otherwise the level. -/
def require_page_access (db : DB) (page_id user_id : Nat)
    (required : RequiredAccess) : Except ApiError AccessLevel :=
  match check_page_access db page_id user_id with
  | none => .error .notFound
  | some access =>
    if required == .owner && access != .owner then .error .forbidden
    else if required == .edit && access != .owner && access != .edit then .error .forbidden
    else .ok access

/-! ## Page repository (`app/services/pages_service.py`) -/

/-- `get_page_by_id`: 404 when no page has the id. -/
def get_page_by_id (db : DB) (page_id : Nat) : Except ApiError Page :=
  match db.pages.find? (fun p => p.id == page_id) with
  | none => .error .notFound
  | some p => .ok p

/-- `_get_owned_page_or_none`: the page with the id, only if owned by the user. -/
def get_owned_page_or_none (db : DB) (page_id user_id : Nat) : Option Page :=
  db.pages.find? (fun p => p.id == page_id && p.user_id == user_id)

/-- A partial update payload: an outer `some` marks the field as present in
the request body (`exclude_unset`), the inner option is the JSON value,
which may itself be null. -/
structure PageUpdates where
  title : Option (Option String)
  content : Option (Option String)
  parent_id : Option (Option Nat)
deriving Repr

/-- The `"title" in updates` block of `update_page`: re-validate non-empty
after trim (a null title counts as empty). -/
def apply_title (page : Page) : Option (Option String) → Except ApiError Page
  | none => .ok page
  | some t =>
    let normalized := strip (t.getD "")
    if normalized = "" then .error .validation
    else .ok { page with title := normalized }

/-- The `"content" in updates` block of `update_page`: unconditional. -/
def apply_content (page : Page) : Option (Option String) → Page
  | none => page
  | some c => { page with content := c }

/-- The `"parent_id" in updates` block of `update_page`: owner-only; null
always allowed; self-parent is 422; a parent not owned by the caller is 404. -/
def apply_parent (db : DB) (page : Page) (user_id : Nat)
    (access_level : AccessLevel) : Option (Option Nat) → Except ApiError Page
  | none => .ok page
  | some v =>
    if access_level ≠ .owner then .error .forbidden
    else
      match v with
      | none => .ok { page with parent_id := none }
      | some pid2 =>
        if pid2 = page.id then .error .validation
        else
          match get_owned_page_or_none db pid2 user_id with
          | none => .error .notFound
          | some _ => .ok { page with parent_id := some pid2 }

/-- Write back the mutated ORM row at commit time. -/
def replacePage (pages : List Page) (p : Page) : List Page :=
  pages.map (fun q => if q.id == p.id then p else q)

/-- `update_page`: fetch, apply the three field blocks in source order, commit. -/
def update_page (db : DB) (page_id user_id : Nat) (access_level : AccessLevel)
    (updates : PageUpdates) : Except ApiError (Page × DB) :=
  match get_page_by_id db page_id with
  | .error e => .error e
  | .ok page0 =>
    match apply_title page0 updates.title with
    | .error e => .error e
    | .ok page1 =>
      let page2 := apply_content page1 updates.content
      match apply_parent db page2 user_id access_level updates.parent_id with
      | .error e => .error e
      | .ok page3 => .ok (page3, { db with pages := replacePage db.pages page3 })

/-- `get_child_pages`: `WHERE parent_id = page_id ORDER BY title ASC, id ASC`. -/
def get_child_pages (db : DB) (page_id : Nat) : List Page :=
  List.insertionSort childOrder (db.pages.filter (fun p => p.parent_id == some page_id))

/-! ## Share repository (`app/services/sharing_service.py`) -/

/-- `_require_page_owner`: 403 unless a page with the id is owned by the caller. -/
def require_page_owner (db : DB) (page_id owner_id : Nat) : Except ApiError Page :=
  match db.pages.find? (fun p => p.id == page_id && p.user_id == owner_id) with
  | none => .error .forbidden
  | some p => .ok p

/-- `_require_target_user`: 404 unless the target user exists. -/
def require_target_user (db : DB) (user_id : Nat) : Except ApiError User :=
  match db.users.find? (fun u => u.id == user_id) with
  | none => .error .notFound
  | some u => .ok u

/-- Update the permission level of the (first) grant matching
`(page_id, target)` — the in-place mutation of the fetched ORM row. -/
def set_share_level : List PageShare → Nat → Nat → PermissionLevel → List PageShare
  | [], _, _, _ => []
  | sh :: rest, pid, target, lvl =>
    if sh.page_id == pid && sh.shared_with_user_id == target then
      { sh with permission_level := lvl } :: rest
    else
      sh :: set_share_level rest pid target lvl

/-- `share_page`: owner gate, target-user gate, self-share gate (in source
order), then upsert.  The second component is the store after the call; every
failure leaves it untouched, since the source raises before mutating. -/
def share_page (db : DB) (page_id owner_id shared_with_user_id : Nat)
    (permission_level : PermissionLevel) : Except ApiError PageShare × DB :=
  match require_page_owner db page_id owner_id with
  | .error e => (.error e, db)
  | .ok _ =>
    match require_target_user db shared_with_user_id with
    | .error e => (.error e, db)
    | .ok _ =>
      if owner_id = shared_with_user_id then (.error .validation, db)
      else
        match db.shares.find? (fun sh =>
            sh.page_id == page_id && sh.shared_with_user_id == shared_with_user_id) with
        | none =>
          let share : PageShare :=
            ⟨page_id, owner_id, shared_with_user_id, permission_level⟩
          (.ok share, { db with shares := db.shares ++ [share] })
        | some sh =>
          (.ok { sh with permission_level := permission_level },
           { db with shares := set_share_level db.shares page_id shared_with_user_id permission_level })

/-! ## Tree assembler (`app/services/pages_service.py::list_pages`) -/

/-- Per-node visibility metadata attached during the merge. -/
structure NodeMeta where
  is_shared : Bool
  permission : Option PermissionLevel
  owner_email : Option String
deriving DecidableEq, Repr

/-- A serialized tree node of the listing response. -/
inductive PageNode where
  | mk
    (id : Nat)
    (user_id : Nat)
    (parent_id : Option Nat)
    (title : String)
    (content : Option String)
    (is_shared : Bool)
    (permission : Option PermissionLevel)
    (owner_email : Option String)
    (children : List PageNode)

/-- The id of a serialized node. -/
def PageNode.nid : PageNode → Nat
  | .mk i _ _ _ _ _ _ _ _ => i

mutual
/-- All page ids occurring anywhere in a serialized tree. -/
def PageNode.allIds : PageNode → List Nat
  | .mk i _ _ _ _ _ _ _ cs => i :: PageNode.allIdsList cs

/-- All page ids occurring anywhere in a forest. -/
def PageNode.allIdsList : List PageNode → List Nat
  | [] => []
  | n :: ns => PageNode.allIds n ++ PageNode.allIdsList ns
end

/-- The owned fetch: `WHERE pages.user_id = user_id`. -/
def owned_pages (db : DB) (uid : Nat) : List Page :=
  db.pages.filter (fun p => p.user_id == uid)

/-- The shared fetch: shares for the user joined to their page (excluding
pages the user owns) and to the owning user's email. -/
def shared_rows (db : DB) (uid : Nat) : List (Page × PermissionLevel × String) :=
  (db.shares.filter (fun sh => sh.shared_with_user_id == uid)).flatMap (fun sh =>
    (db.pages.filter (fun p => p.id == sh.page_id && p.user_id != uid)).filterMap (fun p =>
      (db.users.find? (fun u => u.id == p.user_id)).map (fun u =>
        (p, sh.permission_level, u.email))))

/-- The merge loop over the shared rows: skip a row whose page id already
carries metadata (owned pages were entered first, so owned tags win). -/
def merge_rows : List Page → List (Nat × NodeMeta) →
    List (Page × PermissionLevel × String) → List Page × List (Nat × NodeMeta)
  | acc, meta, [] => (acc, meta)
  | acc, meta, (p, lvl, em) :: rest =>
    if (meta.find? (fun e => e.1 == p.id)).isSome then
      merge_rows acc meta rest
    else
      merge_rows (acc ++ [p]) (meta ++ [(p.id, ⟨true, some lvl, some em⟩)]) rest

/-- The merged candidate list and its metadata index. -/
def visible_with_meta (db : DB) (uid : Nat) : List Page × List (Nat × NodeMeta) :=
  let owned := owned_pages db uid
  merge_rows owned (owned.map (fun p => (p.id, ⟨false, none, none⟩))) (shared_rows db uid)

/-- `metadata.get(node.id, {})` with the serializer's defaults. -/
def lookupMeta (meta : List (Nat × NodeMeta)) (pid : Nat) : NodeMeta :=
  ((meta.find? (fun e => e.1 == pid)).map Prod.snd).getD ⟨false, none, none⟩

/-- Is the page a root of the visible forest: null parent, or a parent id
absent from the visible index. -/
def isRootIn (ps : List Page) (p : Page) : Bool :=
  match p.parent_id with
  | none => true
  | some v => !(ps.any (fun q => q.id == v))

/-- The recursive `serialize`, with fuel standing in for the acyclicity the
store's trigger guarantees (one unit per tree level; the initial fuel, the
size of the visible set, suffices for any acyclic visible set). -/
def serializeNode (visible : List Page) (meta : List (Nat × NodeMeta)) :
    Nat → Page → PageNode
  | 0, p =>
    let m := lookupMeta meta p.id
    .mk p.id p.user_id p.parent_id p.title p.content m.is_shared m.permission m.owner_email []
  | fuel + 1, p =>
    let m := lookupMeta meta p.id
    let children := List.insertionSort treeOrder
      (visible.filter (fun c => c.parent_id == some p.id))
    .mk p.id p.user_id p.parent_id p.title p.content m.is_shared m.permission m.owner_email
      (children.map (serializeNode visible meta fuel))

/-- `list_pages`: fetch owned and shared, merge, sort, then either return the
visible children of `parent_id` (404 when it is not visible) or the visible
roots, each serialized recursively. -/
def list_pages (db : DB) (user_id : Nat) (parent_id : Option Nat) :
    Except ApiError (List PageNode) :=
  let ps0 := visible_with_meta db user_id
  let ps := List.insertionSort treeOrder ps0.1
  match parent_id with
  | some pid =>
    if ps.any (fun p => p.id == pid) then
      let children := List.insertionSort treeOrder
        (ps.filter (fun p => p.parent_id == some pid))
      .ok (children.map (serializeNode ps ps0.2 ps.length))
    else .error .notFound
  | none =>
    let roots := List.insertionSort treeOrder (ps.filter (fun p => isRootIn ps p))
    .ok (roots.map (serializeNode ps ps0.2 ps.length))

/-! ## Route glue used by the claims (`app/routers/pages.py`) -/

/-- GET `/api/pages/{id}`: evaluator-gated read. -/
def get_page_endpoint (db : DB) (page_id user_id : Nat) : Except ApiError Page :=
  match require_page_access db page_id user_id .view with
  | .error e => .error e
  | .ok _ => get_page_by_id db page_id

/-- GET `/api/pages/{id}/children`: evaluator-gated, then the unfiltered
child query. -/
def get_page_children_endpoint (db : DB) (page_id user_id : Nat) :
    Except ApiError (List Page) :=
  match require_page_access db page_id user_id .view with
  | .error e => .error e
  | .ok _ => .ok (get_child_pages db page_id)

/-! ## Registration (`app/routers/auth.py::register` composed with the
`assign_first_user_admin` BEFORE INSERT trigger of migration 006) -/

/-- `register`: normalize email and username, reject duplicates, insert; the
trigger promotes the row to admin exactly when the users table was empty at
insert time.  Surrogate id generation is modelled by the caller-supplied
fresh id. -/
def register (db : DB) (newId : Nat) (email username name password_hash : String) :
    Except ApiError (User × DB) :=
  let email := strip (lowerStr email)
  let username := strip (lowerStr username)
  if (db.users.find? (fun u => u.email == email)).isSome then .error .conflict
  else if (db.users.find? (fun u => u.username.map lowerStr == some username)).isSome then
    .error .conflict
  else
    let role := if db.users.isEmpty then Role.admin else Role.user
    let user : User := ⟨newId, email, some (strip name), some username, password_hash, role⟩
    .ok (user, { db with users := db.users ++ [user] })

/-! ## Spec-side vocabulary

These definitions follow the specification's words, to be compared with the
source-derived functions above. -/

/-- The numeric rank of an effective level under the spec's ordering
`view_only < edit < owner`. -/
def AccessLevel.rank : AccessLevel → Nat
  | .view_only => 0
  | .edit => 1
  | .owner => 2

/-- The rank a required minimum demands under the same ordering. -/
def RequiredAccess.minRank : RequiredAccess → Nat
  | .view => 0
  | .edit => 1
  | .owner => 2

/-- The spec's visible set: a page the user owns, or one a share grant gives
them (glossary: "their own pages plus pages explicitly shared with them"). -/
def specVisible (db : DB) (uid : Nat) (p : Page) : Prop :=
  p ∈ db.pages ∧
    (p.user_id = uid ∨
      ∃ sh ∈ db.shares, sh.page_id = p.id ∧ sh.shared_with_user_id = uid)

/-- The spec's root condition: a visible page whose parent is null or refers
to a page not in the visible set. -/
def specRoot (db : DB) (uid : Nat) (p : Page) : Prop :=
  specVisible db uid p ∧
    (p.parent_id = none ∨ ∀ q, specVisible db uid q → p.parent_id ≠ some q.id)

/-- All grant rows for a (page, target) pair. -/
def grants_for (shares : List PageShare) (pid tid : Nat) : List PageShare :=
  shares.filter (fun sh => sh.page_id == pid && sh.shared_with_user_id == tid)

/-- Project the role out of a registration outcome. -/
def roleOf : Except ApiError (User × DB) → Option Role
  | .ok (u, _) => some u.role
  | .error _ => none

/-- Project the page list out of a children-endpoint outcome. -/
def childrenOf : Except ApiError (List Page) → List Page
  | .ok l => l
  | .error _ => []

/-! ## Concrete fixtures used by witnesses and counterexamples -/

/-- Owner A of the spec's tree-listing scenario. -/
def userA : User := ⟨1, "a@example.com", none, none, "h", .user⟩

/-- Sharee B of the spec's tree-listing scenario. -/
def userB : User := ⟨2, "b@example.com", none, none, "h", .user⟩

/-- Root(parent=null), owned by A. -/
def pageRoot : Page := ⟨10, 1, none, "Root", none⟩

/-- Child(parent=Root), owned by A. -/
def pageChild : Page := ⟨11, 1, some 10, "Child", none⟩

/-- The share of Child with B at view_only. -/
def shareChildB : PageShare := ⟨11, 1, 2, .view_only⟩

/-- The two-page, one-share state of the spec's scenario. -/
def exDB : DB := ⟨[userA, userB], [pageRoot, pageChild], [shareChildB]⟩

/-- exDB extended with a grandchild of Child that is neither owned by nor
shared with B. -/
def c10db : DB := ⟨[userA, userB], [pageRoot, pageChild, ⟨12, 1, some 11, "Grand", none⟩], [shareChildB]⟩

/-- Sibling pages titled "Banana" and "apple" under a common parent. -/
def c4db : DB :=
  ⟨[userA],
   [⟨1, 1, none, "P", none⟩, ⟨2, 1, some 1, "Banana", none⟩, ⟨3, 1, some 1, "apple", none⟩],
   []⟩

/-- A store with no users at all. -/
def emptyDB : DB := ⟨[], [], []⟩

/-- The store after the very first registration. -/
def regDB1 : DB := ⟨[⟨1, "a@x", some "A", some "a", "h", .admin⟩], [], []⟩

/-! ## Helper lemmas -/

theorem find_unique {α} {p : α → Bool} {l : List α} {a : α}
    (ha : a ∈ l) (hpa : p a = true)
    (uniq : ∀ x ∈ l, ∀ y ∈ l, p x = true → p y = true → x = y) :
    l.find? p = some a := by
  induction l with
  | nil => cases ha
  | cons b t ih =>
    by_cases hb : p b = true
    · have hba : b = a := uniq b (List.mem_cons_self b t) a ha hb hpa
      rw [List.find?_cons_of_pos _ hb, hba]
    · have ha' : a ∈ t := by
        rcases List.mem_cons.mp ha with h | h
        · exact absurd (h ▸ hpa) hb
        · exact h
      rw [List.find?_cons_of_neg _ (by simpa using hb)]
      exact ih ha' (fun x hx y hy => uniq x (List.mem_cons_of_mem _ hx) y (List.mem_cons_of_mem _ hy))

theorem find_none {α} {p : α → Bool} {l : List α}
    (h : ∀ a ∈ l, p a = false) : l.find? p = none :=
  List.find?_eq_none.mpr (fun a ha => by simp [h a ha])

/-! ## Claims -/

/-- C2: `check_page_access` returns absent when no page with the id exists,
`owner` when the page's owner is the caller, otherwise the grant's level when
a grant for (page, user) exists, and absent when none does. -/
theorem claim_C2 (db : DB) (pid uid : Nat)
    (hpages : ∀ p ∈ db.pages, ∀ q ∈ db.pages, p.id = q.id → p = q)
    (hshares : ∀ s1 ∈ db.shares, ∀ s2 ∈ db.shares,
      s1.page_id = s2.page_id → s1.shared_with_user_id = s2.shared_with_user_id → s1 = s2) :
    ((∀ p ∈ db.pages, p.id ≠ pid) → check_page_access db pid uid = none) ∧
    (∀ p ∈ db.pages, p.id = pid → p.user_id = uid →
      check_page_access db pid uid = some .owner) ∧
    (∀ p ∈ db.pages, p.id = pid → p.user_id ≠ uid →
      (∀ sh ∈ db.shares, sh.page_id = pid → sh.shared_with_user_id = uid →
        check_page_access db pid uid = some sh.permission_level.toAccess) ∧
      ((∀ sh ∈ db.shares, ¬(sh.page_id = pid ∧ sh.shared_with_user_id = uid)) →
        check_page_access db pid uid = none)) := by
  refine ⟨?_, ?_, ?_⟩
  · intro habs
    have hf : db.pages.find? (fun p => p.id == pid) = none :=
      find_none (fun p hp => by simp [habs p hp])
    unfold check_page_access
    rw [hf]
  · intro p hp hpid huid
    have hf : db.pages.find? (fun q => q.id == pid) = some p :=
      find_unique hp (by simp [hpid])
        (fun x hx y hy hxp hyp =>
          hpages x hx y hy (by simp at hxp hyp; rw [hxp, hyp]))
    unfold check_page_access
    rw [hf]
    simp [huid]
  · intro p hp hpid huid
    have hf : db.pages.find? (fun q => q.id == pid) = some p :=
      find_unique hp (by simp [hpid])
        (fun x hx y hy hxp hyp =>
          hpages x hx y hy (by simp at hxp hyp; rw [hxp, hyp]))
    constructor
    · intro sh hsh hshp hshu
      have hfs : db.shares.find?
          (fun s => s.page_id == pid && s.shared_with_user_id == uid) = some sh :=
        find_unique hsh (by simp [hshp, hshu])
          (fun x hx y hy hxp hyp => by
            simp at hxp hyp
            exact hshares x hx y hy (hxp.1.trans hyp.1.symm) (hxp.2.trans hyp.2.symm))
      unfold check_page_access
      rw [hf]
      simp [huid, hfs]
    · intro habs
      have hfs : db.shares.find?
          (fun s => s.page_id == pid && s.shared_with_user_id == uid) = none :=
        find_none (fun sh hsh => by
          have hns := habs sh hsh
          by_cases h1 : sh.page_id = pid
          · have h2 : sh.shared_with_user_id ≠ uid := fun h2 => hns ⟨h1, h2⟩
            simp [h2]
          · simp [h1])
      unfold check_page_access
      rw [hf]
      simp [huid, hfs]

/-- C2 witness: in the concrete scenario, the grant gives B view_only on
Child, A is owner of Root, and an unknown id is absent. -/
theorem claim_C2_witness :
    check_page_access exDB 11 2 = some PermissionLevel.view_only.toAccess ∧
    check_page_access exDB 10 1 = some .owner ∧
    check_page_access exDB 99 2 = none :=
  ⟨((claim_C2 exDB 11 2 (by decide) (by decide)).2.2 pageChild (by decide) rfl
      (by decide)).1 shareChildB (by decide) rfl rfl,
   (claim_C2 exDB 10 1 (by decide) (by decide)).2.1 pageRoot (by decide) rfl rfl,
   (claim_C2 exDB 99 2 (by decide) (by decide)).1 (by decide)⟩

/-- C3: `require_page_access` raises not-found exactly when the evaluation is
absent, forbidden exactly when the level's rank falls below the required
minimum under `view_only < edit < owner`, and otherwise returns the level;
minimum edit admits only edit and owner, minimum owner only owner. -/
theorem claim_C3 (db : DB) (pid uid : Nat) (req : RequiredAccess) :
    (require_page_access db pid uid req = .error .notFound ↔
      check_page_access db pid uid = none) ∧
    (require_page_access db pid uid req = .error .forbidden ↔
      ∃ lvl, check_page_access db pid uid = some lvl ∧ lvl.rank < req.minRank) ∧
    (∀ lvl, check_page_access db pid uid = some lvl →
      ((req.minRank ≤ lvl.rank → require_page_access db pid uid req = .ok lvl) ∧
       (require_page_access db pid uid req = .ok lvl → req.minRank ≤ lvl.rank))) ∧
    (∀ lvl, req = .edit → require_page_access db pid uid req = .ok lvl →
      lvl = .edit ∨ lvl = .owner) ∧
    (∀ lvl, req = .owner → require_page_access db pid uid req = .ok lvl →
      lvl = .owner) := by
  cases hc : check_page_access db pid uid with
  | none =>
    unfold require_page_access
    rw [hc]
    simp
  | some lvl =>
    unfold require_page_access
    rw [hc]
    cases req <;> cases lvl <;>
      simp [AccessLevel.rank, RequiredAccess.minRank]

/-- C3 witness: concrete gating outcomes in the scenario state. -/
theorem claim_C3_witness :
    require_page_access exDB 11 2 .view = .ok .view_only ∧
    require_page_access exDB 11 2 .edit = .error .forbidden ∧
    require_page_access exDB 99 2 .view = .error .notFound :=
  ⟨((claim_C3 exDB 11 2 .view).2.2.1 .view_only (by decide)).1 (by decide),
   (claim_C3 exDB 11 2 .edit).2.1.mpr ⟨.view_only, by decide, by decide⟩,
   (claim_C3 exDB 99 2 .view).1.mpr (by decide)⟩

/-- A caller who neither owns the page nor holds a grant on it evaluates to
absent, whether or not a page with that id exists. -/
theorem check_none_of_no_access (db : DB) (pid uid : Nat)
    (hown : ∀ p ∈ db.pages, p.id = pid → p.user_id ≠ uid)
    (hsh : ∀ sh ∈ db.shares, ¬(sh.page_id = pid ∧ sh.shared_with_user_id = uid)) :
    check_page_access db pid uid = none := by
  unfold check_page_access
  cases hf : db.pages.find? (fun p => p.id == pid) with
  | none => rfl
  | some page =>
    have hmem := List.mem_of_find?_eq_some hf
    have hid : page.id = pid := by simpa using List.find?_some hf
    have huid : page.user_id ≠ uid := hown page hmem hid
    have hfs : db.shares.find?
        (fun s => s.page_id == pid && s.shared_with_user_id == uid) = none :=
      find_none (fun sh hshm => by
        have hns := hsh sh hshm
        by_cases h1 : sh.page_id = pid
        · have h2 : sh.shared_with_user_id ≠ uid := fun h2 => hns ⟨h1, h2⟩
          simp [h2]
        · simp [h1])
    simp [huid, hfs]

/-- A store holding no page with the queried id evaluates to absent for
every caller. -/
theorem check_none_of_absent (db : DB) (pid uid : Nat)
    (habs : ∀ p ∈ db.pages, p.id ≠ pid) :
    check_page_access db pid uid = none := by
  unfold check_page_access
  rw [find_none (fun p hp => by simp [habs p hp])]

/-- An absent evaluation makes both the gate and the gated read answer
not-found. -/
theorem gated_read_notFound (db : DB) (pid uid : Nat) (req : RequiredAccess)
    (hc : check_page_access db pid uid = none) :
    require_page_access db pid uid req = .error .notFound ∧
    get_page_endpoint db pid uid = .error .notFound := by
  have hreq : ∀ r, require_page_access db pid uid r = .error .notFound := by
    intro r
    unfold require_page_access
    rw [hc]
  refine ⟨hreq req, ?_⟩
  unfold get_page_endpoint
  rw [hreq .view]

/-- C9: for a caller with neither ownership nor a grant, the evaluator-gated
read yields not-found, and a store where the page is missing is
indistinguishable from one where it exists but is invisible to the caller. -/
theorem claim_C9 :
    (∀ (db : DB) (pid uid : Nat) (req : RequiredAccess),
      (∀ p ∈ db.pages, p.id = pid → p.user_id ≠ uid) →
      (∀ sh ∈ db.shares, ¬(sh.page_id = pid ∧ sh.shared_with_user_id = uid)) →
      require_page_access db pid uid req = .error .notFound ∧
      get_page_endpoint db pid uid = .error .notFound) ∧
    (∀ (db1 db2 : DB) (pid uid : Nat) (req : RequiredAccess),
      (∀ p ∈ db1.pages, p.id ≠ pid) →
      (∀ p ∈ db2.pages, p.id = pid → p.user_id ≠ uid) →
      (∀ sh ∈ db2.shares, ¬(sh.page_id = pid ∧ sh.shared_with_user_id = uid)) →
      require_page_access db1 pid uid req = require_page_access db2 pid uid req ∧
      get_page_endpoint db1 pid uid = get_page_endpoint db2 pid uid) := by
  constructor
  · intro db pid uid req hown hsh
    exact gated_read_notFound db pid uid req (check_none_of_no_access db pid uid hown hsh)
  · intro db1 db2 pid uid req habs hown hsh
    have h1 := gated_read_notFound db1 pid uid req (check_none_of_absent db1 pid uid habs)
    have h2 := gated_read_notFound db2 pid uid req (check_none_of_no_access db2 pid uid hown hsh)
    exact ⟨h1.1.trans h2.1.symm, h1.2.trans h2.2.symm⟩

/-- C9 witness: for B, a store without page 10 and the scenario store (where
page 10 exists but is invisible to B) produce identical not-found outcomes. -/
theorem claim_C9_witness :
    require_page_access ⟨[userA, userB], [pageChild], [shareChildB]⟩ 10 2 .view =
      require_page_access exDB 10 2 .view ∧
    get_page_endpoint ⟨[userA, userB], [pageChild], [shareChildB]⟩ 10 2 =
      get_page_endpoint exDB 10 2 ∧
    get_page_endpoint exDB 10 2 = .error .notFound :=
  ⟨(claim_C9.2 ⟨[userA, userB], [pageChild], [shareChildB]⟩ exDB 10 2 .view
      (by decide) (by decide) (by decide)).1,
   (claim_C9.2 ⟨[userA, userB], [pageChild], [shareChildB]⟩ exDB 10 2 .view
      (by decide) (by decide) (by decide)).2,
   (claim_C9.1 exDB 10 2 .view (by decide) (by decide)).2⟩

/-- C10: for any user holding some access to a page, the children endpoint
returns every direct child present in the store — no visibility filtering of
children, unlike the tree listing. -/
theorem claim_C10 (db : DB) (pid uid : Nat) (lvl : AccessLevel)
    (hacc : check_page_access db pid uid = some lvl) :
    get_page_children_endpoint db pid uid = .ok (get_child_pages db pid) ∧
    ∀ c, c ∈ get_child_pages db pid ↔ (c ∈ db.pages ∧ c.parent_id = some pid) := by
  have hreq : require_page_access db pid uid .view = .ok lvl := by
    unfold require_page_access
    rw [hacc]
    cases lvl <;> rfl
  constructor
  · unfold get_page_children_endpoint
    rw [hreq]
  · intro c
    unfold get_child_pages
    rw [(List.perm_insertionSort childOrder _).mem_iff, List.mem_filter]
    simp

/-- C10 witness: B holds only a grant on Child, yet the children endpoint on
Child returns the grandchild that is neither owned by nor shared with B. -/
theorem claim_C10_witness :
    get_page_children_endpoint c10db 11 2 = .ok (get_child_pages c10db 11) ∧
    (⟨12, 1, some 11, "Grand", none⟩ : Page) ∈ get_child_pages c10db 11 :=
  ⟨(claim_C10 c10db 11 2 .view_only (by decide)).1,
   ((claim_C10 c10db 11 2 .view_only (by decide)).2 _).mpr ⟨by decide, rfl⟩⟩

/-- C4 counterexample: `get_child_pages` orders siblings "Banana" before
"apple" (raw binary-collation title order), though the case-folded order the
claim states would put "apple" first. -/
theorem claim_C4_counterexample :
    (get_child_pages c4db 1).map Page.title = ["Banana", "apple"] ∧
    (get_child_pages c4db 1).map Page.title ≠ ["apple", "Banana"] ∧
    strLt (casefold "apple") (casefold "Banana") = true :=
  ⟨by rfl, by decide, by decide⟩

/-- C4 amended: `list_children` returns the direct children of the page
ordered by raw title under the store's binary collation (not case-folded),
then by id, both ascending. -/
theorem claim_C4 (db : DB) (pid : Nat) :
    List.Sorted childOrder (get_child_pages db pid) ∧
    (get_child_pages db pid).Perm (db.pages.filter (fun p => p.parent_id == some pid)) ∧
    ∀ c, c ∈ get_child_pages db pid ↔ (c ∈ db.pages ∧ c.parent_id = some pid) := by
  unfold get_child_pages
  refine ⟨List.sorted_insertionSort _ _, List.perm_insertionSort _ _, ?_⟩
  intro c
  rw [(List.perm_insertionSort childOrder _).mem_iff, List.mem_filter]
  simp

/-- With unique page ids, looking a member page up by its id finds it. -/
theorem find_page_eq (db : DB) {pid : Nat} {page : Page} (hp : page ∈ db.pages)
    (hpid : page.id = pid)
    (hkey : ∀ p ∈ db.pages, ∀ q ∈ db.pages, p.id = q.id → p = q) :
    db.pages.find? (fun q => q.id == pid) = some page :=
  find_unique hp (by simp [hpid]) (fun x hx y hy hxp hyp =>
    hkey x hx y hy (by simp at hxp hyp; rw [hxp, hyp]))

/-- C5: an update whose changes include parent_id is forbidden for any
non-owner access level; for the owner, a null parent is accepted (the page
ends up a root), the page's own id is a validation failure, and an id with no
page owned by the caller is not-found. -/
theorem claim_C5 (db : DB) (pid uid : Nat) (lvl : AccessLevel) (upd : PageUpdates)
    (v : Option Nat) (hupd : upd.parent_id = some v)
    (page : Page) (hp : page ∈ db.pages) (hpid : page.id = pid)
    (hkey : ∀ p ∈ db.pages, ∀ q ∈ db.pages, p.id = q.id → p = q)
    (htitle : ∀ t, upd.title = some t → strip (t.getD "") ≠ "") :
    (lvl ≠ .owner → update_page db pid uid lvl upd = .error .forbidden) ∧
    (lvl = .owner → v = none →
      ∃ p2 db2, update_page db pid uid lvl upd = .ok (p2, db2) ∧ p2.parent_id = none) ∧
    (lvl = .owner → v = some pid → update_page db pid uid lvl upd = .error .validation) ∧
    (∀ v2, lvl = .owner → v = some v2 → v2 ≠ pid →
      (∀ q ∈ db.pages, ¬(q.id = v2 ∧ q.user_id = uid)) →
      update_page db pid uid lvl upd = .error .notFound) := by
  have hget : get_page_by_id db pid = .ok page := by
    unfold get_page_by_id
    rw [find_page_eq db hp hpid hkey]
  obtain ⟨page1, ht1, hid1⟩ :
      ∃ p1, apply_title page upd.title = .ok p1 ∧ p1.id = page.id := by
    cases ht : upd.title with
    | none => exact ⟨page, rfl, rfl⟩
    | some t =>
      refine ⟨{ page with title := strip (t.getD "") }, ?_, rfl⟩
      simp [apply_title, htitle t ht]
  have hid2 : (apply_content page1 upd.content).id = pid := by
    cases hc : upd.content <;> simp [apply_content, hid1, hpid]
  refine ⟨?_, ?_, ?_, ?_⟩
  · intro hlvl
    simp [update_page, hget, ht1, hupd, apply_parent, hlvl]
  · intro hlvl hv
    rw [hv] at hupd
    refine ⟨{ apply_content page1 upd.content with parent_id := none },
      { db with pages := replacePage db.pages { apply_content page1 upd.content with parent_id := none } }, ?_, rfl⟩
    simp [update_page, hget, ht1, hupd, apply_parent, hlvl]
  · intro hlvl hv
    rw [hv] at hupd
    simp [update_page, hget, ht1, hupd, apply_parent, hlvl, hid2]
  · intro v2 hlvl hv hne hnot
    rw [hv] at hupd
    have hnone : get_owned_page_or_none db v2 uid = none := by
      unfold get_owned_page_or_none
      exact find_none (fun q hq => by
        have hnq := hnot q hq
        by_cases h1 : q.id = v2
        · have h2 : q.user_id ≠ uid := fun h2 => hnq ⟨h1, h2⟩
          simp [h2]
        · simp [h1])
    have hne2 : v2 ≠ (apply_content page1 upd.content).id := by
      rw [hid2]; exact hne
    simp [update_page, hget, ht1, hupd, apply_parent, hlvl, hne2, hnone]

/-- C5 witness: in the scenario state, B (view_only) may not reparent Child;
the owner can null the parent, cannot self-parent, and reparenting to an id
they do not own is not-found. -/
theorem claim_C5_witness :
    update_page exDB 11 2 .view_only ⟨none, none, some none⟩ = .error .forbidden ∧
    (∃ p2 db2, update_page exDB 11 1 .owner ⟨none, none, some none⟩ = .ok (p2, db2) ∧
      p2.parent_id = none) ∧
    update_page exDB 11 1 .owner ⟨none, none, some (some 11)⟩ = .error .validation ∧
    update_page exDB 11 1 .owner ⟨none, none, some (some 99)⟩ = .error .notFound :=
  ⟨(claim_C5 exDB 11 2 .view_only ⟨none, none, some none⟩ none rfl pageChild
      (by decide) rfl (by decide) (by intro t ht; cases ht)).1 (by decide),
   (claim_C5 exDB 11 1 .owner ⟨none, none, some none⟩ none rfl pageChild
      (by decide) rfl (by decide) (by intro t ht; cases ht)).2.1 rfl rfl,
   (claim_C5 exDB 11 1 .owner ⟨none, none, some (some 11)⟩ (some 11) rfl pageChild
      (by decide) rfl (by decide) (by intro t ht; cases ht)).2.2.1 rfl rfl,
   (claim_C5 exDB 11 1 .owner ⟨none, none, some (some 99)⟩ (some 99) rfl pageChild
      (by decide) rfl (by decide) (by intro t ht; cases ht)).2.2.2 99 rfl rfl
      (by decide) (by decide)⟩

theorem find_some_of_mem {α} (p : α → Bool) {l : List α} {a : α}
    (ha : a ∈ l) (hpa : p a = true) : ∃ b, l.find? p = some b := by
  cases h : l.find? p with
  | none => exact absurd hpa (by simpa using List.find?_eq_none.mp h a ha)
  | some b => exact ⟨b, rfl⟩

/-- C6: sharing fails forbidden whenever the caller does not own the page,
not-found when the caller owns it but the target user does not exist,
validation when the caller owns it, the target exists, and caller equals
target; and every failing call leaves the store untouched. -/
theorem claim_C6 (db : DB) (pid oid tid : Nat) (lvl : PermissionLevel) :
    ((∀ p ∈ db.pages, ¬(p.id = pid ∧ p.user_id = oid)) →
      share_page db pid oid tid lvl = (.error .forbidden, db)) ∧
    (∀ p ∈ db.pages, p.id = pid → p.user_id = oid →
      (∀ u ∈ db.users, u.id ≠ tid) →
      share_page db pid oid tid lvl = (.error .notFound, db)) ∧
    (∀ p ∈ db.pages, p.id = pid → p.user_id = oid →
      ∀ u ∈ db.users, u.id = tid → oid = tid →
      share_page db pid oid tid lvl = (.error .validation, db)) ∧
    (∀ e, (share_page db pid oid tid lvl).1 = .error e →
      (share_page db pid oid tid lvl).2 = db) := by
  refine ⟨?_, ?_, ?_, ?_⟩
  · intro hno
    have hro : require_page_owner db pid oid = .error .forbidden := by
      unfold require_page_owner
      rw [find_none (fun p hp => by
        have hnp := hno p hp
        by_cases h1 : p.id = pid
        · have h2 : p.user_id ≠ oid := fun h2 => hnp ⟨h1, h2⟩
          simp [h2]
        · simp [h1])]
    simp [share_page, hro]
  · intro p hp hpid hoid hnou
    obtain ⟨p0, hro⟩ := find_some_of_mem
      (fun q => q.id == pid && q.user_id == oid) hp (by simp [hpid, hoid])
    have hro2 : require_page_owner db pid oid = .ok p0 := by
      unfold require_page_owner
      rw [hro]
    have htu : require_target_user db tid = .error .notFound := by
      unfold require_target_user
      rw [find_none (fun u hu => by simp [hnou u hu])]
    simp [share_page, hro2, htu]
  · intro p hp hpid hoid u hu htid heq
    obtain ⟨p0, hro⟩ := find_some_of_mem
      (fun q => q.id == pid && q.user_id == oid) hp (by simp [hpid, hoid])
    have hro2 : require_page_owner db pid oid = .ok p0 := by
      unfold require_page_owner
      rw [hro]
    obtain ⟨u0, htu⟩ := find_some_of_mem (fun w => w.id == tid) hu (by simp [htid])
    have htu2 : require_target_user db tid = .ok u0 := by
      unfold require_target_user
      rw [htu]
    simp only [share_page, hro2, htu2]
    rw [if_pos heq]
  · intro e
    unfold share_page
    cases require_page_owner db pid oid with
    | error e2 => intro _; rfl
    | ok _ =>
      cases require_target_user db tid with
      | error e2 => intro _; rfl
      | ok _ =>
        by_cases h : oid = tid
        · simp [h]
        · simp only [if_neg h]
          cases db.shares.find? (fun sh =>
              sh.page_id == pid && sh.shared_with_user_id == tid) with
          | none => simp
          | some sh => simp

/-- C6 witness: the owner self-sharing Child fails validation; a non-owner
sharing fails forbidden; a missing target fails not-found; the store is
unchanged each time. -/
theorem claim_C6_witness :
    share_page exDB 11 1 1 .edit = (.error .validation, exDB) ∧
    share_page exDB 11 2 2 .edit = (.error .forbidden, exDB) ∧
    share_page exDB 11 1 99 .edit = (.error .notFound, exDB) :=
  ⟨(claim_C6 exDB 11 1 1 .edit).2.2.1 pageChild (by decide) rfl rfl userA
      (by decide) rfl rfl,
   (claim_C6 exDB 11 2 2 .edit).1 (by decide),
   (claim_C6 exDB 11 1 99 .edit).2.1 pageChild (by decide) rfl rfl (by decide)⟩

theorem eq_singleton_of_mem_of_len_le {α} {l : List α} {a : α}
    (ha : a ∈ l) (hl : l.length ≤ 1) : l = [a] := by
  cases l with
  | nil => cases ha
  | cons b t =>
    have ht : t = [] := by
      cases t with
      | nil => rfl
      | cons c u => simp at hl
    subst ht
    rw [List.mem_singleton.mp ha]

theorem set_share_level_length (shares : List PageShare) (pid tid : Nat)
    (lvl : PermissionLevel) :
    (set_share_level shares pid tid lvl).length = shares.length := by
  induction shares with
  | nil => rfl
  | cons b t ih =>
    unfold set_share_level
    by_cases hb : (b.page_id == pid && b.shared_with_user_id == tid) = true
    · rw [if_pos hb]
      simp
    · rw [if_neg hb]
      simp [ih]

theorem grants_for_eq_nil {shares : List PageShare} {pid tid : Nat}
    (h : shares.find? (fun s => s.page_id == pid && s.shared_with_user_id == tid) = none) :
    grants_for shares pid tid = [] := by
  unfold grants_for
  exact List.filter_eq_nil_iff.mpr (fun a ha => by
    simpa using List.find?_eq_none.mp h a ha)

theorem grants_for_single {shares : List PageShare} {pid tid : Nat} {s0 : PageShare}
    (hf : shares.find? (fun s => s.page_id == pid && s.shared_with_user_id == tid) = some s0)
    (hlen : (grants_for shares pid tid).length ≤ 1) :
    grants_for shares pid tid = [s0] := by
  have hmem : s0 ∈ grants_for shares pid tid := by
    unfold grants_for
    exact List.mem_filter.mpr ⟨List.mem_of_find?_eq_some hf, by
      simpa using List.find?_some hf⟩
  exact eq_singleton_of_mem_of_len_le hmem hlen

theorem find_of_grants_single {shares : List PageShare} {pid tid : Nat} {s0 : PageShare}
    (h : grants_for shares pid tid = [s0]) :
    shares.find? (fun s => s.page_id == pid && s.shared_with_user_id == tid) = some s0 := by
  have hmem0 : s0 ∈ grants_for shares pid tid := by
    rw [h]
    exact List.mem_singleton.mpr rfl
  have hmem : s0 ∈ shares ∧ (s0.page_id == pid && s0.shared_with_user_id == tid) = true := by
    unfold grants_for at hmem0
    exact List.mem_filter.mp hmem0
  apply find_unique hmem.1 hmem.2
  intro x hx y hy hxp hyp
  have hxg : x ∈ grants_for shares pid tid := by
    unfold grants_for
    exact List.mem_filter.mpr ⟨hx, hxp⟩
  have hyg : y ∈ grants_for shares pid tid := by
    unfold grants_for
    exact List.mem_filter.mpr ⟨hy, hyp⟩
  rw [h] at hxg hyg
  rw [List.mem_singleton.mp hxg, List.mem_singleton.mp hyg]

theorem grants_set_level {pid tid : Nat} {lvl : PermissionLevel} :
    ∀ {shares : List PageShare} {sh : PageShare},
    grants_for shares pid tid = [sh] →
    grants_for (set_share_level shares pid tid lvl) pid tid =
      [{ sh with permission_level := lvl }] := by
  intro shares
  induction shares with
  | nil => intro sh h; simp [grants_for] at h
  | cons b t ih =>
    intro sh h
    by_cases hb : (b.page_id == pid && b.shared_with_user_id == tid) = true
    · have hgf : grants_for (b :: t) pid tid = b :: grants_for t pid tid := by
        simp [grants_for, List.filter_cons, hb]
      rw [hgf] at h
      have hbsh : b = sh := by injection h
      have htnil : grants_for t pid tid = [] := by injection h
      subst hbsh
      unfold set_share_level
      rw [if_pos hb]
      unfold grants_for at htnil ⊢
      simp [List.filter_cons, hb, htnil]
    · have hgf : grants_for (b :: t) pid tid = grants_for t pid tid := by
        simp [grants_for, List.filter_cons, hb]
      rw [hgf] at h
      unfold set_share_level
      rw [if_neg hb]
      have hres := ih h
      unfold grants_for at hres ⊢
      simp [List.filter_cons, hb]
      exact hres

/-- A successful `share_page` changes neither users nor pages, and either
appends a fresh grant (when none matched) or rewrites the level of the
matched grant in place. -/
theorem share_page_ok {db : DB} {pid oid tid : Nat} {lvl : PermissionLevel}
    {sh : PageShare} {db2 : DB}
    (h : share_page db pid oid tid lvl = (.ok sh, db2)) :
    db2.users = db.users ∧ db2.pages = db.pages ∧
    ((db.shares.find? (fun s => s.page_id == pid && s.shared_with_user_id == tid) = none ∧
        db2.shares = db.shares ++ [⟨pid, oid, tid, lvl⟩]) ∨
     (∃ s0, db.shares.find?
          (fun s => s.page_id == pid && s.shared_with_user_id == tid) = some s0 ∧
        db2.shares = set_share_level db.shares pid tid lvl)) := by
  unfold share_page at h
  cases hro : require_page_owner db pid oid with
  | error e => rw [hro] at h; simp at h
  | ok p0 =>
    rw [hro] at h
    cases htu : require_target_user db tid with
    | error e => rw [htu] at h; simp at h
    | ok u0 =>
      rw [htu] at h
      by_cases he : oid = tid
      · rw [if_pos he] at h
        simp at h
      · rw [if_neg he] at h
        cases hf : db.shares.find?
            (fun s => s.page_id == pid && s.shared_with_user_id == tid) with
        | none =>
          rw [hf] at h
          have h2 := congrArg Prod.snd h
          simp at h2
          rw [← h2]
          exact ⟨rfl, rfl, Or.inl ⟨rfl, rfl⟩⟩
        | some s0 =>
          rw [hf] at h
          have h2 := congrArg Prod.snd h
          simp at h2
          rw [← h2]
          exact ⟨rfl, rfl, Or.inr ⟨s0, rfl, rfl⟩⟩

/-- C7: against a store whose unique-grant invariant holds for the pair,
sharing twice with the same target leaves exactly one grant row for the pair,
carrying the last level; when a grant already existed, the first call updates
it in place without growing the share table. -/
theorem claim_C7 (db : DB) (pid oid tid : Nat) (l1 l2 : PermissionLevel)
    (huniq : (grants_for db.shares pid tid).length ≤ 1) :
    ∀ sh1 db1 sh2 db2,
    share_page db pid oid tid l1 = (.ok sh1, db1) →
    share_page db1 pid oid tid l2 = (.ok sh2, db2) →
    ((grants_for db.shares pid tid ≠ [] → db1.shares.length = db.shares.length) ∧
     (grants_for db1.shares pid tid).length = 1 ∧
     (grants_for db2.shares pid tid).map (fun s => s.permission_level) = [l2]) := by
  intro sh1 db1 sh2 db2 h1 h2
  obtain ⟨-, -, hcase1⟩ := share_page_ok h1
  obtain ⟨x, hg1⟩ : ∃ x, grants_for db1.shares pid tid = [x] := by
    rcases hcase1 with ⟨hf, hsh⟩ | ⟨s0, hf, hsh⟩
    · refine ⟨⟨pid, oid, tid, l1⟩, ?_⟩
      rw [hsh]
      unfold grants_for
      rw [List.filter_append]
      have hnil := grants_for_eq_nil hf
      unfold grants_for at hnil
      rw [hnil]
      simp
    · refine ⟨{ s0 with permission_level := l1 }, ?_⟩
      rw [hsh]
      exact grants_set_level (grants_for_single hf huniq)
  refine ⟨?_, ?_, ?_⟩
  · intro hne
    rcases hcase1 with ⟨hf, _⟩ | ⟨s0, hf, hsh⟩
    · exact absurd (grants_for_eq_nil hf) hne
    · rw [hsh]
      exact set_share_level_length db.shares pid tid l1
  · rw [hg1]
    rfl
  · obtain ⟨-, -, hcase2⟩ := share_page_ok h2
    rcases hcase2 with ⟨hf, _⟩ | ⟨s0, hf, hsh⟩
    · rw [find_of_grants_single hg1] at hf
      cases hf
    · rw [hsh, grants_set_level hg1]
      rfl

/-- C7 witness: sharing Child with B at edit then at view_only leaves exactly
one grant row for (Child, B), carrying view_only. -/
theorem claim_C7_witness :
    (grants_for (share_page (share_page exDB 11 1 2 .edit).2 11 1 2 .view_only).2.shares
      11 2).map (fun s => s.permission_level) = [.view_only] :=
  (claim_C7 exDB 11 1 2 .edit .view_only (by decide)
    ⟨11, 1, 2, .edit⟩ (share_page exDB 11 1 2 .edit).2
    ⟨11, 1, 2, .view_only⟩ (share_page (share_page exDB 11 1 2 .edit).2 11 1 2 .view_only).2
    (by rfl) (by rfl)).2.2

/-- C8: registering into an empty system yields an admin (the trigger sees a
zero row count); any registration that succeeds while users already exist
yields the default role user. -/
theorem claim_C8 (db : DB) (newId : Nat) (email username name pw : String) :
    (db.users = [] →
      ∃ u db2, register db newId email username name pw = .ok (u, db2) ∧
        u.role = .admin) ∧
    (∀ u db2, db.users ≠ [] →
      register db newId email username name pw = .ok (u, db2) →
      u.role = .user) := by
  constructor
  · intro h
    obtain ⟨us, ps, ss⟩ := db
    simp only at h
    subst h
    exact ⟨_, _, rfl, rfl⟩
  · intro u db2 hne hreg
    unfold register at hreg
    cases hus : db.users with
    | nil => exact absurd hus hne
    | cons a t =>
      rw [hus] at hreg
      simp only [List.isEmpty_cons] at hreg
      split at hreg
      · simp at hreg
      · split at hreg
        · simp at hreg
        · have h3 := congrArg roleOf hreg
          simp [roleOf] at h3
          exact h3.symm

/-- C8 witness: the first registration in an empty store is promoted to
admin; a later registration gets role user. -/
theorem claim_C8_witness :
    roleOf (register emptyDB 1 "a@x" "a" "A" "h") = some .admin ∧
    roleOf (register regDB1 2 "b@x" "b" "B" "h") = some .user := by
  constructor
  · obtain ⟨u, db2, heq, hrole⟩ :=
      (claim_C8 emptyDB 1 "a@x" "a" "A" "h").1 rfl
    rw [heq]
    simp [roleOf, hrole]
  · have hrole := (claim_C8 regDB1 2 "b@x" "b" "B" "h").2
      ⟨2, "b@x", some "B", some "b", "h", .user⟩
      ⟨[⟨1, "a@x", some "A", some "a", "h", .admin⟩,
        ⟨2, "b@x", some "B", some "b", "h", .user⟩], [], []⟩
      (by simp [regDB1]) (by rfl)
    rw [show register regDB1 2 "b@x" "b" "B" "h" =
      .ok (⟨2, "b@x", some "B", some "b", "h", .user⟩,
        ⟨[⟨1, "a@x", some "A", some "a", "h", .admin⟩,
          ⟨2, "b@x", some "B", some "b", "h", .user⟩], [], []⟩) from rfl]
    simp [roleOf, hrole]

theorem serializeNode_nid (vis : List Page) (meta : List (Nat × NodeMeta))
    (fuel : Nat) (p : Page) : (serializeNode vis meta fuel p).nid = p.id := by
  cases fuel <;> rfl

theorem find_append_isSome {α} (p : α → Bool) (l1 l2 : List α) :
    ((l1 ++ l2).find? p).isSome = ((l1.find? p).isSome || (l2.find? p).isSome) := by
  induction l1 with
  | nil => simp
  | cons a t ih =>
    by_cases h : p a = true
    · rw [List.cons_append, List.find?_cons_of_pos _ h, List.find?_cons_of_pos _ h]
      simp
    · have hb : ¬ p a := by simpa using h
      rw [List.cons_append, List.find?_cons_of_neg _ hb, List.find?_cons_of_neg _ hb, ih]

theorem merge_rows_sub : ∀ (rows : List (Page × PermissionLevel × String))
    (acc : List Page) (meta : List (Nat × NodeMeta)) (p : Page),
    p ∈ (merge_rows acc meta rows).1 → p ∈ acc ∨ ∃ r ∈ rows, r.1 = p := by
  intro rows
  induction rows with
  | nil => intro acc meta p hp; exact Or.inl hp
  | cons r rest ih =>
    intro acc meta p hp
    obtain ⟨q, lvl, em⟩ := r
    unfold merge_rows at hp
    by_cases hs : (meta.find? (fun e => e.1 == q.id)).isSome = true
    · rw [if_pos hs] at hp
      rcases ih acc meta p hp with h | ⟨r2, hr2, he⟩
      · exact Or.inl h
      · exact Or.inr ⟨r2, List.mem_cons_of_mem _ hr2, he⟩
    · rw [if_neg hs] at hp
      rcases ih _ _ p hp with h | ⟨r2, hr2, he⟩
      · rcases List.mem_append.mp h with h2 | h2
        · exact Or.inl h2
        · exact Or.inr ⟨(q, lvl, em), List.mem_cons_self _ _,
            (List.mem_singleton.mp h2).symm⟩
      · exact Or.inr ⟨r2, List.mem_cons_of_mem _ hr2, he⟩

theorem merge_rows_acc : ∀ (rows : List (Page × PermissionLevel × String))
    (acc : List Page) (meta : List (Nat × NodeMeta)),
    acc ⊆ (merge_rows acc meta rows).1 := by
  intro rows
  induction rows with
  | nil => intro acc meta; exact fun x hx => hx
  | cons r rest ih =>
    intro acc meta
    obtain ⟨q, lvl, em⟩ := r
    unfold merge_rows
    by_cases hs : (meta.find? (fun e => e.1 == q.id)).isSome = true
    · rw [if_pos hs]
      exact ih acc meta
    · rw [if_neg hs]
      exact fun x hx => ih _ _ (List.mem_append.mpr (Or.inl hx))

theorem merge_rows_id_iff : ∀ (rows : List (Page × PermissionLevel × String))
    (acc : List Page) (meta : List (Nat × NodeMeta)),
    (∀ j, (meta.find? (fun e => e.1 == j)).isSome = true ↔ ∃ q ∈ acc, q.id = j) →
    ∀ i, (∃ q ∈ (merge_rows acc meta rows).1, q.id = i) ↔
      ((∃ q ∈ acc, q.id = i) ∨ (∃ r ∈ rows, r.1.id = i)) := by
  intro rows
  induction rows with
  | nil =>
    intro acc meta hinv i
    constructor
    · intro h
      exact Or.inl h
    · rintro (h | ⟨r, hr, -⟩)
      · exact h
      · cases hr
  | cons r rest ih =>
    intro acc meta hinv i
    obtain ⟨q, lvl, em⟩ := r
    unfold merge_rows
    by_cases hs : (meta.find? (fun e => e.1 == q.id)).isSome = true
    · rw [if_pos hs]
      rw [ih acc meta hinv i]
      obtain ⟨q0, hq0, hq0id⟩ := (hinv q.id).mp hs
      constructor
      · rintro (h | ⟨r2, hr2, he⟩)
        · exact Or.inl h
        · exact Or.inr ⟨r2, List.mem_cons_of_mem _ hr2, he⟩
      · rintro (h | ⟨r2, hr2, he⟩)
        · exact Or.inl h
        · rcases List.mem_cons.mp hr2 with h2 | h2
          · refine Or.inl ⟨q0, hq0, ?_⟩
            rw [hq0id, ← he, h2]
          · exact Or.inr ⟨r2, h2, he⟩
    · rw [if_neg hs]
      have hinv2 : ∀ j,
          (((meta ++ [((q.id, ⟨true, some lvl, some em⟩) : Nat × NodeMeta)]).find?
            (fun e => e.1 == j)).isSome = true) ↔ ∃ p ∈ acc ++ [q], p.id = j := by
        intro j
        rw [find_append_isSome]
        have hsingle : (([((q.id, ⟨true, some lvl, some em⟩) : Nat × NodeMeta)].find?
            (fun e => e.1 == j)).isSome = true) ↔ q.id = j := by
          by_cases hqj : q.id = j
          · simp [List.find?_cons, hqj]
          · simp [List.find?_cons, hqj]
        rw [Bool.or_eq_true, hinv j, hsingle]
        constructor
        · rintro (⟨p, hp, he⟩ | he)
          · exact ⟨p, List.mem_append.mpr (Or.inl hp), he⟩
          · exact ⟨q, List.mem_append.mpr (Or.inr (List.mem_singleton.mpr rfl)), he⟩
        · rintro ⟨p, hp, he⟩
          rcases List.mem_append.mp hp with h2 | h2
          · exact Or.inl ⟨p, h2, he⟩
          · rw [List.mem_singleton.mp h2] at he
            exact Or.inr he
      rw [ih (acc ++ [q]) _ hinv2 i]
      constructor
      · rintro (⟨p, hp, he⟩ | ⟨r2, hr2, he⟩)
        · rcases List.mem_append.mp hp with h2 | h2
          · exact Or.inl ⟨p, h2, he⟩
          · rw [List.mem_singleton.mp h2] at he
            exact Or.inr ⟨(q, lvl, em), List.mem_cons_self _ _, he⟩
        · exact Or.inr ⟨r2, List.mem_cons_of_mem _ hr2, he⟩
      · rintro (⟨p, hp, he⟩ | ⟨r2, hr2, he⟩)
        · exact Or.inl ⟨p, List.mem_append.mpr (Or.inl hp), he⟩
        · rcases List.mem_cons.mp hr2 with h2 | h2
          · refine Or.inl ⟨q, List.mem_append.mpr (Or.inr (List.mem_singleton.mpr rfl)), ?_⟩
            rw [h2] at he
            exact he
          · exact Or.inr ⟨r2, h2, he⟩

theorem shared_rows_mem {db : DB} {uid : Nat} {r : Page × PermissionLevel × String}
    (hr : r ∈ shared_rows db uid) :
    r.1 ∈ db.pages ∧ r.1.user_id ≠ uid ∧
      ∃ sh ∈ db.shares, sh.page_id = r.1.id ∧ sh.shared_with_user_id = uid := by
  unfold shared_rows at hr
  obtain ⟨sh, hsh, hr2⟩ := List.mem_flatMap.mp hr
  obtain ⟨hshmem, hshu⟩ := List.mem_filter.mp hsh
  obtain ⟨p0, hp0, hg⟩ := List.mem_filterMap.mp hr2
  obtain ⟨hp0mem, hp0cond⟩ := List.mem_filter.mp hp0
  obtain ⟨u0, -, hu0r⟩ := Option.map_eq_some'.mp hg
  have hr1 : r.1 = p0 := by rw [← hu0r]
  simp only [Bool.and_eq_true, beq_iff_eq, bne_iff_ne] at hp0cond
  rw [hr1]
  refine ⟨hp0mem, hp0cond.2, sh, hshmem, hp0cond.1.symm, by simpa using hshu⟩

theorem shared_rows_intro {db : DB} {uid : Nat} {p : Page} {sh : PageShare}
    (hp : p ∈ db.pages) (hpu : p.user_id ≠ uid)
    (hsh : sh ∈ db.shares) (hshp : sh.page_id = p.id) (hshu : sh.shared_with_user_id = uid)
    (hu : ∃ u ∈ db.users, u.id = p.user_id) :
    ∃ r ∈ shared_rows db uid, r.1 = p := by
  obtain ⟨u, hu1, hu2⟩ := hu
  obtain ⟨u0, hfind⟩ := find_some_of_mem (fun w => w.id == p.user_id) hu1 (by simp [hu2])
  refine ⟨(p, sh.permission_level, u0.email), ?_, rfl⟩
  unfold shared_rows
  refine List.mem_flatMap.mpr ⟨sh, List.mem_filter.mpr ⟨hsh, by simp [hshu]⟩, ?_⟩
  refine List.mem_filterMap.mpr ⟨p, List.mem_filter.mpr ⟨hp, by simp [hshp.symm, hpu]⟩, ?_⟩
  rw [hfind]
  rfl

theorem owned_meta_inv (db : DB) (uid : Nat) :
    ∀ j, (((owned_pages db uid).map
        (fun p => ((p.id, ⟨false, none, none⟩) : Nat × NodeMeta))).find?
        (fun e => e.1 == j)).isSome = true ↔ ∃ q ∈ owned_pages db uid, q.id = j := by
  intro j
  rw [List.find?_map]
  simp [List.find?_isSome, Function.comp]

/-- Under unique page ids and existing owners, the merged candidate list of
`list_pages` holds exactly the spec's visible set. -/
theorem visible_mem_iff (db : DB) (uid : Nat)
    (hkey : ∀ p ∈ db.pages, ∀ q ∈ db.pages, p.id = q.id → p = q)
    (howners : ∀ p ∈ db.pages, ∃ u ∈ db.users, u.id = p.user_id) (p : Page) :
    p ∈ (visible_with_meta db uid).1 ↔ specVisible db uid p := by
  constructor
  · intro hp
    rcases merge_rows_sub (shared_rows db uid) (owned_pages db uid) _ p hp with h | ⟨r, hr, he⟩
    · have h2 := List.mem_filter.mp h
      exact ⟨h2.1, Or.inl (by simpa using h2.2)⟩
    · obtain ⟨hmem, -, sh, hshmem, hshp, hshu⟩ := shared_rows_mem hr
      rw [he] at hmem hshp
      exact ⟨hmem, Or.inr ⟨sh, hshmem, hshp, hshu⟩⟩
  · intro hv
    obtain ⟨hpmem, hcase⟩ := hv
    by_cases hou : p.user_id = uid
    · exact merge_rows_acc (shared_rows db uid) _ _
        (List.mem_filter.mpr ⟨hpmem, by simp [hou]⟩)
    · rcases hcase with h | ⟨sh, hsh, hshp, hshu⟩
      · exact absurd h hou
      · obtain ⟨r, hr, he⟩ :=
          shared_rows_intro hpmem hou hsh hshp hshu (howners p hpmem)
        have hid := (merge_rows_id_iff (shared_rows db uid) (owned_pages db uid)
            ((owned_pages db uid).map
              (fun p2 => ((p2.id, ⟨false, none, none⟩) : Nat × NodeMeta)))
            (owned_meta_inv db uid) p.id).mpr
          (Or.inr ⟨r, hr, by rw [he]⟩)
        obtain ⟨q, hq, hqid⟩ := hid
        have hqpages : q ∈ db.pages := by
          rcases merge_rows_sub (shared_rows db uid) (owned_pages db uid) _ q hq
            with h2 | ⟨r2, hr2, he2⟩
          · exact (List.mem_filter.mp h2).1
          · have h3 := (shared_rows_mem hr2).1
            rw [he2] at h3
            exact h3
        have hqp : q = p := hkey q hqpages p hpmem hqid
        exact hqp ▸ hq

theorem isRootIn_none {ps : List Page} {p : Page} (h : p.parent_id = none) :
    isRootIn ps p = true := by
  simp [isRootIn, h]

theorem isRootIn_some {ps : List Page} {p : Page} {v : Nat} (h : p.parent_id = some v) :
    isRootIn ps p = !(ps.any (fun q => q.id == v)) := by
  simp [isRootIn, h]

theorem list_pages_none (db : DB) (uid : Nat) :
    list_pages db uid none =
      .ok ((List.insertionSort treeOrder
            ((List.insertionSort treeOrder (visible_with_meta db uid).1).filter
              (fun p => isRootIn (List.insertionSort treeOrder (visible_with_meta db uid).1) p))).map
          (serializeNode (List.insertionSort treeOrder (visible_with_meta db uid).1)
            (visible_with_meta db uid).2
            (List.insertionSort treeOrder (visible_with_meta db uid).1).length)) := rfl

/-- C1: with `parent_id` omitted, the forest's roots are exactly the visible
pages (owned or shared-with) whose parent is null or not itself visible; and
in the concrete scenario B's forest is the single re-rooted Child node,
tagged shared at view_only, with no Root node anywhere. -/
theorem claim_C1 :
    (∀ (db : DB) (uid : Nat),
      (∀ p ∈ db.pages, ∀ q ∈ db.pages, p.id = q.id → p = q) →
      (∀ p ∈ db.pages, ∃ u ∈ db.users, u.id = p.user_id) →
      ∃ forest, list_pages db uid none = .ok forest ∧
        (∀ p ∈ db.pages, ((∃ n ∈ forest, n.nid = p.id) ↔ specRoot db uid p)) ∧
        (∀ n ∈ forest, ∃ p ∈ db.pages, n.nid = p.id)) ∧
    (list_pages exDB 2 none =
      .ok [.mk 11 1 (some 10) "Child" none true (some .view_only)
            (some "a@example.com") []] ∧
     PageNode.allIdsList
       [.mk 11 1 (some 10) "Child" none true (some .view_only)
         (some "a@example.com") []] = [11]) := by
  constructor
  · intro db uid hkey howners
    refine ⟨_, list_pages_none db uid, ?_, ?_⟩
    · intro p hp
      set ps := List.insertionSort treeOrder (visible_with_meta db uid).1 with hpsdef
      have hpsmem : ∀ q, q ∈ ps ↔ specVisible db uid q := fun q =>
        (List.perm_insertionSort treeOrder _).mem_iff.trans
          (visible_mem_iff db uid hkey howners q)
      constructor
      · rintro ⟨n, hn, hnid⟩
        obtain ⟨r, hr, hser⟩ := List.mem_map.mp hn
        have hrid : r.id = p.id := by rw [← hnid, ← hser, serializeNode_nid]
        obtain ⟨hrps, hroot⟩ := List.mem_filter.mp
          ((List.perm_insertionSort treeOrder _).mem_iff.mp hr)
        have hrvis := (hpsmem r).mp hrps
        have hrp : r = p := hkey r hrvis.1 p hp hrid
        subst hrp
        refine ⟨hrvis, ?_⟩
        cases hpar : r.parent_id with
        | none => exact Or.inl rfl
        | some v =>
          right
          intro q hq hcontra
          have hqv : v = q.id := by injection hcontra
          have hroot2 : (!(ps.any (fun q2 => q2.id == v))) = true := by
            rw [← isRootIn_some hpar]
            exact hroot
          have hany : ps.any (fun q2 => q2.id == v) = true :=
            List.any_eq_true.mpr ⟨q, (hpsmem q).mpr hq, by simp [hqv]⟩
          rw [hany] at hroot2
          cases hroot2
      · intro hroot
        obtain ⟨hvis, hcond⟩ := hroot
        have hpps : p ∈ ps := (hpsmem p).mpr hvis
        have hisroot : isRootIn ps p = true := by
          cases hpar : p.parent_id with
          | none => exact isRootIn_none hpar
          | some v =>
            rw [isRootIn_some hpar]
            rcases hcond with h | h
            · rw [h] at hpar
              cases hpar
            · cases hany : ps.any (fun q2 => q2.id == v) with
              | false => rfl
              | true =>
                obtain ⟨q, hq, hqv⟩ := List.any_eq_true.mp hany
                have hqvis := (hpsmem q).mp hq
                have hne := h q hqvis
                have hqid : q.id = v := by simpa using hqv
                exact absurd (by rw [hpar, hqid]) hne
        refine ⟨serializeNode ps (visible_with_meta db uid).2 ps.length p, ?_,
          serializeNode_nid ps (visible_with_meta db uid).2 ps.length p⟩
        exact List.mem_map.mpr ⟨p,
          (List.perm_insertionSort treeOrder _).mem_iff.mpr
            (List.mem_filter.mpr ⟨hpps, hisroot⟩), rfl⟩
    · intro n hn
      obtain ⟨r, hr, hser⟩ := List.mem_map.mp hn
      obtain ⟨hrps, -⟩ := List.mem_filter.mp
        ((List.perm_insertionSort treeOrder _).mem_iff.mp hr)
      have hrvis := ((List.perm_insertionSort treeOrder _).mem_iff.trans
        (visible_mem_iff db uid hkey howners r)).mp hrps
      exact ⟨r, hrvis.1, by rw [← hser, serializeNode_nid]⟩
  · exact ⟨rfl, rfl⟩

/-- C1 witness: instantiating the root characterization at the concrete
scenario shows Child is a root of B's forest in the spec's sense. -/
theorem claim_C1_witness : specRoot exDB 2 pageChild := by
  obtain ⟨f, heq, hiff, -⟩ := claim_C1.1 exDB 2 (by decide) (by decide)
  have hf : f = [.mk 11 1 (some 10) "Child" none true (some .view_only)
      (some "a@example.com") []] := by
    have h2 := heq.symm.trans claim_C1.2.1
    exact Except.ok.inj h2
  apply (hiff pageChild (by decide)).mp
  rw [hf]
  exact ⟨.mk 11 1 (some 10) "Child" none true (some .view_only)
    (some "a@example.com") [], List.mem_singleton.mpr rfl, rfl⟩
